import Mathlib

/-
Verification of the match-resolution and diagnostics engine of
`find_by_semantic_locator.ts` (the semantic-locators repository).

Elements of the external tree are modelled by their path of child indices
from the root, so that document order (depth-first pre-order) and
ancestor/descendant containment are definable and executable.  The external
collaborators (`findByRole`, `computeARIAAttributeValue`, `getNameFor`,
`nameMatches`, `parse`, `buildFailureMessage`) are fields of an `Env`
record, since the spec treats them as external contracts.  The utility
functions `outerNodesOnly`, `removeDuplicates`, `compareNodeOrder` and
`combineMostSpecific` are repository code that is not part of the provided
source file; they are modelled from the spec (see their doc comments).
-/

namespace SemLoc

/-- An element of the tree, identified by its path of child indices from the
root.  Distinct elements have distinct paths. -/
abbrev Elem := List Nat

/-- Modelled from the spec: the `compareNodeOrder` collaborator (from
`./util`, not under `src/`): "total ordering over elements by document
position", document order being "the linear order in which elements appear
when the tree is traversed depth-first, pre-order".  On paths this is the
order that puts an ancestor before its descendants and otherwise compares
the first differing child index. -/
def compareNodeOrder : Elem → Elem → Ordering
  | [], [] => Ordering.eq
  | [], _ :: _ => Ordering.lt
  | _ :: _, [] => Ordering.gt
  | a :: as, b :: bs =>
    if a < b then Ordering.lt
    else if b < a then Ordering.gt
    else compareNodeOrder as bs

/-- Strict document order. -/
def docLt (a b : Elem) : Prop := compareNodeOrder a b = Ordering.lt

/-- Non-strict document order, as the sort comparator induces it. -/
def docLe (a b : Elem) : Prop := compareNodeOrder a b ≠ Ordering.gt

instance : DecidableRel docLt := fun a b => by unfold docLt; infer_instance

instance : DecidableRel docLe := fun a b => by unfold docLe; infer_instance

/-- Containment test: `ancestorOrSelf a b` holds iff `a` is `b` itself or an
ancestor of `b`, i.e. iff the path `a` is a path-wise start of `b`. -/
def ancestorOrSelf : Elem → Elem → Bool
  | [], _ => true
  | _ :: _, [] => false
  | a :: as, b :: bs => a == b && ancestorOrSelf as bs

/-- Strict containment: `a` is a proper ancestor of `b`. -/
def strictAncestor (a b : Elem) : Bool := ancestorOrSelf a b && a != b

/-- Modelled from the spec: the `outerNodesOnly` utility (from `./outer`, not
under `src/`): "keep only elements with no ancestor also present in the same
set". -/
def outerNodesOnly (xs : List Elem) : List Elem :=
  xs.filter fun x => !(xs.any fun y => strictAncestor y x)

/-- Helper for `removeDuplicates`: drops any element already seen. -/
def removeDuplicatesAux (seen : List Elem) : List Elem → List Elem
  | [] => []
  | x :: xs =>
    if x ∈ seen then removeDuplicatesAux seen xs
    else x :: removeDuplicatesAux (x :: seen) xs

/-- Modelled from the spec: the `removeDuplicates` utility (from `./util`,
not under `src/`): "duplicate removal preserving the induced order" (each
element keeps its first occurrence). -/
def removeDuplicates (xs : List Elem) : List Elem := removeDuplicatesAux [] xs

/-- Sorting by the document-order comparator (the source's
`elementsFound.sort(compareNodeOrder)`): a sorted-by-`docLe` permutation. -/
def sortByDocumentOrder (xs : List Elem) : List Elem := xs.insertionSort docLe

/-- One parsed predicate (`SemanticNode` from `./semantic_locator`): a role,
a mapping of attribute name to required value in insertion order, and an
optional accessible-name matcher. -/
structure SemanticNode where
  role : String
  attributes : List (String × String)
  name : Option String
deriving DecidableEq

/-- A mapping of attribute name to value, in insertion order. -/
abbrev AttributeMap := List (String × String)

/-- A parsed locator: the predicate chains before and after the single
optional `outer` operator. -/
structure SemanticLocator where
  preOuter : List SemanticNode
  postOuter : List SemanticNode
deriving DecidableEq

/-- The failing predicate recorded in the `notFound` field. -/
inductive NotFoundTarget where
  | role (role : String)
  | attribute (name value : String)
  | name (name : String)
deriving DecidableEq

/-- The partially resolved predicate (`partialFind`): the role plus the
attributes already matched. -/
structure PartialFind where
  role : String
  attributes : AttributeMap
deriving DecidableEq

/-- Diagnostic metadata of a failed search (`EmptyResultsMetadata` from
`./lookup_result`). -/
structure EmptyResultsMetadata where
  closestFind : List SemanticNode
  elementsFound : List Elem
  notFound : NotFoundTarget
  partialFind : Option PartialFind
deriving DecidableEq

instance : Inhabited EmptyResultsMetadata :=
  ⟨⟨[], [], NotFoundTarget.role "", none⟩⟩

/-- A search result (`Result` from `./lookup_result`): either the matched
elements or the failure metadata. -/
inductive Result where
  | found (found : List Elem)
  | noneFound (metadata : EmptyResultsMetadata)
deriving DecidableEq

/-- The elements of a non-empty result (`result.found` on the success side). -/
def foundElems : Result → Option (List Elem)
  | Result.found els => some els
  | Result.noneFound _ => none

/-- The metadata of an empty result. -/
def metaOf : Result → Option EmptyResultsMetadata
  | Result.found _ => none
  | Result.noneFound m => some m

/-- The matched elements of a result, an empty list on failure. -/
def matchesOf : Result → List Elem
  | Result.found els => els
  | Result.noneFound _ => []

/-- Helper for `combineMostSpecific`: keep the diagnostic with the longer
`closestFind`, preferring the earlier one on ties. -/
def moreSpecific (best cur : EmptyResultsMetadata) : EmptyResultsMetadata :=
  if best.closestFind.length < cur.closestFind.length then cur else best

/-- Modelled from the spec: `combineMostSpecific` (from `./lookup_result`,
not under `src/`): "among all per-base NotFound results, select the one(s)
with the longest closestFind; on tie, select deterministically by
candidate-set documentation order (policy: first such base encountered in
base-iteration order)". -/
def combineMostSpecific : List EmptyResultsMetadata → EmptyResultsMetadata
  | [] => default
  | m :: rest => rest.foldl moreSpecific m

/-- The external collaborators consumed by the core (spec section 6), plus
the parser and the failure-message renderer.  All are opaque to the engine. -/
structure Env where
  parse : String → SemanticLocator
  findByRole : String → Elem → Bool → Bool → List Elem
  computeARIAAttributeValue : Elem → String → Option String
  getNameFor : Elem → String
  nameMatches : String → String → Bool
  buildFailureMessage :
    SemanticLocator → EmptyResultsMetadata → List Elem → List Elem → String

/-- The error raised by the find-exactly-one entry point. -/
structure NoSuchElementError where
  message : String
deriving DecidableEq

/-- Does an element's resolved ARIA attribute value equal the declared one
(source line 175)? -/
def attrMatches (env : Env) (name value : String) (e : Elem) : Bool :=
  decide (env.computeARIAAttributeValue e name = some value)

/-- The name stage of `findBySemanticNode` (source lines 189..203): filter by
accessible name if a name matcher is present. -/
def nameStage (env : Env) (node : SemanticNode) (elements : List Elem) :
    Result :=
  match node.name with
  | none => Result.found elements
  | some n =>
    let nextElements :=
      elements.filter fun e => env.nameMatches n (env.getNameFor e)
    if nextElements.isEmpty then
      Result.noneFound
        ⟨[], elements, NotFoundTarget.name n,
         some ⟨node.role, node.attributes⟩⟩
    else Result.found nextElements

/-- The attribute stage of `findBySemanticNode` (source lines 172..187): for
each declared attribute in iteration order, filter the candidates to those
whose resolved value equals the declared one, accumulating the resolved
attributes; fail on the first attribute that eliminates all candidates. -/
def attributesStage (env : Env) (node : SemanticNode) :
    List Elem → List (String × String) → AttributeMap → Result
  | elements, [], _ => nameStage env node elements
  | elements, (name, value) :: rest, resolvedAttributes =>
    let nextElements := elements.filter (attrMatches env name value)
    if nextElements.isEmpty then
      Result.noneFound
        ⟨[], elements, NotFoundTarget.attribute name value,
         some ⟨node.role, resolvedAttributes⟩⟩
    else
      attributesStage env node nextElements rest
        (resolvedAttributes ++ [(name, value)])

/-- `findBySemanticNode` (source lines 147..204): outermost-filter the search
base, delegate to the role finder under each base, then run the attribute
and name stages. -/
def findBySemanticNode (env : Env) (node : SemanticNode)
    (searchBase : List Elem)
    (includeHidden includePresentational : Bool) : Result :=
  let base := outerNodesOnly searchBase
  let elements := base.flatMap fun b =>
    env.findByRole node.role b includeHidden includePresentational
  if elements.isEmpty then
    Result.noneFound ⟨[], base, NotFoundTarget.role node.role, none⟩
  else attributesStage env node elements node.attributes []

/-- `findBySemanticNodes` (source lines 120..140): apply the matcher to each
node in turn; on failure at index `i` report the first `i` nodes as
`closestFind` and pass the failing matcher's other fields through. -/
def findBySemanticNodes (env : Env) (nodes : List SemanticNode)
    (searchBase : List Elem)
    (includeHidden includePresentational : Bool) : Result :=
  match nodes with
  | [] => Result.found searchBase
  | n :: rest =>
    match findBySemanticNode env n searchBase
        includeHidden includePresentational with
    | Result.noneFound m =>
      Result.noneFound ⟨[], m.elementsFound, m.notFound, m.partialFind⟩
    | Result.found els =>
      match findBySemanticNodes env rest els
          includeHidden includePresentational with
      | Result.noneFound m =>
        Result.noneFound
          ⟨n :: m.closestFind, m.elementsFound, m.notFound, m.partialFind⟩
      | Result.found f => Result.found f

/-- `findBySemanticLocator` (source lines 64..118): resolve `preOuter` from
the root, fan out `postOuter` under each resulting base, merge successes
(per-base outermost filter, then sort by document order and deduplicate) or
merge failures (most specific diagnostic, prefixed with `preOuter`). -/
def findBySemanticLocator (env : Env) (locator : SemanticLocator)
    (root : Elem) (includeHidden includePresentational : Bool) : Result :=
  match findBySemanticNodes env locator.preOuter [root]
      includeHidden includePresentational with
  | Result.noneFound m => Result.noneFound m
  | Result.found base =>
    if locator.postOuter.isEmpty then Result.found base
    else
      let results := base.map fun b =>
        findBySemanticNodes env locator.postOuter [b]
          includeHidden includePresentational
      let elementsFound :=
        (results.filterMap foundElems).flatMap outerNodesOnly
      if elementsFound.isEmpty then
        let noneFound := combineMostSpecific (results.filterMap metaOf)
        Result.noneFound
          ⟨locator.preOuter ++ noneFound.closestFind,
           noneFound.elementsFound, noneFound.notFound, noneFound.partialFind⟩
      else
        Result.found (removeDuplicates (sortByDocumentOrder elementsFound))

/-- `findElementsBySemanticLocator` (source lines 23..32): all matches, the
empty list when nothing matched. -/
def findElementsBySemanticLocator (env : Env) (locator : String)
    (root : Elem) : List Elem :=
  match findBySemanticLocator env (env.parse locator) root false false with
  | Result.noneFound _ => []
  | Result.found els => els

/-- `findElementBySemanticLocator` (source lines 38..58): the first match;
on failure, two extra diagnostic passes (hidden included, presentational
included) feed the failure message of the raised error. -/
def findElementBySemanticLocator (env : Env) (locator : String)
    (root : Elem) : Except NoSuchElementError (Option Elem) :=
  let parsed := env.parse locator
  match findBySemanticLocator env parsed root false false with
  | Result.found els => Except.ok els.head?
  | Result.noneFound m =>
    let hiddenMatches :=
      matchesOf (findBySemanticLocator env parsed root true false)
    let presentationalMatches :=
      matchesOf (findBySemanticLocator env parsed root false true)
    Except.error
      ⟨env.buildFailureMessage parsed m hiddenMatches presentationalMatches⟩

/-- The candidate set left after successfully matching each node of `nodes`
in turn starting from `base`; `none` when some node fails.  Used to state
claims about the segment searcher's intermediate states. -/
def runNodes (env : Env) (nodes : List SemanticNode) (base : List Elem)
    (includeHidden includePresentational : Bool) : Option (List Elem) :=
  match nodes with
  | [] => some base
  | n :: rest =>
    match findBySemanticNode env n base
        includeHidden includePresentational with
    | Result.found els =>
      runNodes env rest els includeHidden includePresentational
    | Result.noneFound _ => none

/-- The candidate set left after filtering by each attribute of `attrs` in
turn; `none` when some attribute eliminates all candidates.  Used to state
claims about the attribute stage's intermediate states. -/
def runAttrs (env : Env) (attrs : List (String × String)) (els : List Elem) :
    Option (List Elem) :=
  match attrs with
  | [] => some els
  | (name, value) :: rest =>
    let nextElements := els.filter (attrMatches env name value)
    if nextElements.isEmpty then none else runAttrs env rest nextElements

/-- The per-base `postOuter` results of the fan-out (source lines 78..89). -/
def postResults (env : Env) (loc : SemanticLocator) (base : List Elem)
    (ih ip : Bool) : List Result :=
  base.map fun b => findBySemanticNodes env loc.postOuter [b] ih ip

/-- The merged success elements of the fan-out (source lines 90..91): the
per-base outermost-filtered found lists, concatenated. -/
def mergedElems (env : Env) (loc : SemanticLocator) (base : List Elem)
    (ih ip : Bool) : List Elem :=
  ((postResults env loc base ih ip).filterMap foundElems).flatMap
    outerNodesOnly

/-- The merged diagnostic of the fan-out (source line 94). -/
def mergedMeta (env : Env) (loc : SemanticLocator) (base : List Elem)
    (ih ip : Bool) : EmptyResultsMetadata :=
  combineMostSpecific ((postResults env loc base ih ip).filterMap metaOf)

/-! Concrete environments used to exercise the engine on closed inputs. -/

/-- Role occupancy of the nested-lists example tree: list `a` at path `[0]`
contains list item `y` at `[0, 0]`, which contains list `b` at `[0, 0, 0]`,
which contains list item `x` at `[0, 0, 0, 0]`.  The role finder returns the
elements of the requested role strictly below the base, in document order. -/
def exampleFindByRole (role : String) (base : Elem) (_ _ : Bool) :
    List Elem :=
  if role = "list" then
    List.filter (fun e => strictAncestor base e) [[0], [0, 0, 0]]
  else if role = "listitem" then
    List.filter (fun e => strictAncestor base e) [[0, 0], [0, 0, 0, 0]]
  else []

/-- The locator `{list} outer {listitem}`. -/
def exampleLoc : SemanticLocator :=
  ⟨[⟨"list", [], none⟩], [⟨"listitem", [], none⟩]⟩

/-- Environment for the nested-lists example. -/
def exampleEnv : Env :=
  ⟨fun _ => exampleLoc, exampleFindByRole, fun _ _ => none, fun _ => "",
   fun _ _ => true, fun _ _ _ _ => ""⟩

/-- An environment whose role finder never finds anything. -/
def emptyEnv : Env :=
  ⟨fun _ => exampleLoc, fun _ _ _ _ => [], fun _ _ => none, fun _ => "",
   fun _ _ => true, fun _ _ _ _ => ""⟩

/-- Role occupancy for the diagnostic-merge example: two sibling lists at
`[0]` and `[1]`; an element of role `item` below the first only; no element
of role `sub` anywhere. -/
def mergeFindByRole (role : String) (base : Elem) (_ _ : Bool) : List Elem :=
  if role = "list" then (if base = ([] : Elem) then [[0], [1]] else [])
  else if role = "item" then (if base = ([0] : Elem) then [[0, 0]] else [])
  else []

/-- The locator `{list} outer {item} {sub}`. -/
def mergeLoc : SemanticLocator :=
  ⟨[⟨"list", [], none⟩], [⟨"item", [], none⟩, ⟨"sub", [], none⟩]⟩

/-- Environment for the diagnostic-merge example. -/
def mergeEnv : Env :=
  ⟨fun _ => mergeLoc, mergeFindByRole, fun _ _ => none, fun _ => "",
   fun _ _ => true, fun _ _ _ _ => ""⟩

/-- Attribute resolution for the attribute-stage examples: every element has
attribute `a` resolved to `1`, `b` to `9` and `c` to `3`. -/
def attrValues (_ : Elem) (name : String) : Option String :=
  if name = "a" then some "1"
  else if name = "b" then some "9"
  else if name = "c" then some "3"
  else none

/-- Role occupancy for the attribute-stage examples: two buttons under the
root. -/
def attrFindByRole (role : String) (base : Elem) (_ _ : Bool) : List Elem :=
  if role = "button" then (if base = ([] : Elem) then [[0], [1]] else [])
  else []

/-- Environment for the attribute-stage examples. -/
def attrEnv : Env :=
  ⟨fun _ => exampleLoc, attrFindByRole, attrValues, fun _ => "",
   fun _ _ => true, fun _ _ _ _ => ""⟩

/-! Order and containment lemmas for the path model of elements. -/

theorem compareNodeOrder_self (a : Elem) :
    compareNodeOrder a a = Ordering.eq := by
  induction a with
  | nil => rfl
  | cons x xs ih => simp [compareNodeOrder, ih]

theorem compareNodeOrder_eq_iff {a b : Elem} :
    compareNodeOrder a b = Ordering.eq ↔ a = b := by
  induction a generalizing b with
  | nil => cases b <;> simp [compareNodeOrder]
  | cons x xs ih =>
    cases b with
    | nil => simp [compareNodeOrder]
    | cons y ys =>
      by_cases h1 : x < y
      · simp only [compareNodeOrder, if_pos h1]
        constructor
        · intro h; cases h
        · rintro ⟨rfl, rfl⟩; exact absurd h1 (lt_irrefl x)
      · by_cases h2 : y < x
        · simp only [compareNodeOrder, if_neg h1, if_pos h2]
          constructor
          · intro h; cases h
          · rintro ⟨rfl, rfl⟩; exact absurd h2 (lt_irrefl x)
        · have hxy : x = y := Nat.le_antisymm (Nat.not_lt.mp h2) (Nat.not_lt.mp h1)
          subst hxy
          simp only [compareNodeOrder, if_neg h1, if_neg h2, ih,
            List.cons.injEq, true_and]

theorem compareNodeOrder_swap (a b : Elem) :
    compareNodeOrder b a = (compareNodeOrder a b).swap := by
  induction a generalizing b with
  | nil => cases b <;> rfl
  | cons x xs ih =>
    cases b with
    | nil => rfl
    | cons y ys =>
      by_cases h1 : x < y
      · have h2 : ¬ y < x := Nat.lt_asymm h1
        simp [compareNodeOrder, h1, h2, Ordering.swap]
      · by_cases h2 : y < x
        · simp [compareNodeOrder, h1, h2, Ordering.swap]
        · simp [compareNodeOrder, h1, h2, ih]

theorem compareNodeOrder_lt_trans {a b c : Elem}
    (h1 : compareNodeOrder a b = Ordering.lt)
    (h2 : compareNodeOrder b c = Ordering.lt) :
    compareNodeOrder a c = Ordering.lt := by
  induction a generalizing b c with
  | nil =>
    cases b with
    | nil => simp [compareNodeOrder] at h1
    | cons y ys =>
      cases c with
      | nil => simp [compareNodeOrder] at h2
      | cons z zs => rfl
  | cons x xs ih =>
    cases b with
    | nil => simp [compareNodeOrder] at h1
    | cons y ys =>
      cases c with
      | nil => simp [compareNodeOrder] at h2
      | cons z zs =>
        simp only [compareNodeOrder] at h1 h2 ⊢
        by_cases hxy : x < y
        · by_cases hyz : y < z
          · simp [Nat.lt_trans hxy hyz]
          · by_cases hzy : z < y
            · simp [hyz, hzy] at h2
            · have : y = z := Nat.le_antisymm (Nat.not_lt.mp hzy) (Nat.not_lt.mp hyz)
              subst this
              simp [hxy]
        · by_cases hyx : y < x
          · simp [hxy, hyx] at h1
          · have hxy' : x = y := Nat.le_antisymm (Nat.not_lt.mp hyx) (Nat.not_lt.mp hxy)
            subst hxy'
            simp only [if_neg hxy, if_neg hyx] at h1
            by_cases hxz : x < z
            · simp [hxz]
            · by_cases hzx : z < x
              · simp [hxz, hzx] at h2
              · simp only [if_neg hxz, if_neg hzx] at h2 ⊢
                exact ih h1 h2

theorem docLt_trans {a b c : Elem} (h1 : docLt a b) (h2 : docLt b c) :
    docLt a c := compareNodeOrder_lt_trans h1 h2

theorem docLt_ne {a b : Elem} (h : docLt a b) : a ≠ b := by
  rintro rfl
  rw [docLt, compareNodeOrder_self] at h
  cases h

theorem docLe_total (a b : Elem) : docLe a b ∨ docLe b a := by
  unfold docLe
  by_cases h : compareNodeOrder a b = Ordering.gt
  · right
    rw [compareNodeOrder_swap, h]
    simp [Ordering.swap]
  · left; exact h

theorem docLe_iff {a b : Elem} : docLe a b ↔ docLt a b ∨ a = b := by
  unfold docLe docLt
  rcases h : compareNodeOrder a b with _ | _ | _
  · simp
  · simp [← compareNodeOrder_eq_iff, h]
  · simp only [ne_eq, not_true_eq_false, false_iff]
    rintro (h' | rfl)
    · cases h'
    · rw [compareNodeOrder_self] at h; cases h

theorem docLe_trans {a b c : Elem} (h1 : docLe a b) (h2 : docLe b c) :
    docLe a c := by
  rcases docLe_iff.mp h1 with h1 | rfl
  · rcases docLe_iff.mp h2 with h2 | rfl
    · exact docLe_iff.mpr (Or.inl (docLt_trans h1 h2))
    · exact docLe_iff.mpr (Or.inl h1)
  · exact h2

theorem ancestorOrSelf_length_le {a b : Elem}
    (h : ancestorOrSelf a b = true) : a.length ≤ b.length := by
  induction a generalizing b with
  | nil => simp
  | cons x xs ih =>
    cases b with
    | nil => simp [ancestorOrSelf] at h
    | cons y ys =>
      simp only [ancestorOrSelf, Bool.and_eq_true, beq_iff_eq] at h
      simpa using ih h.2

theorem ancestorOrSelf_eq_of_length {a b : Elem}
    (h : ancestorOrSelf a b = true) (hl : b.length ≤ a.length) : a = b := by
  induction a generalizing b with
  | nil =>
    cases b with
    | nil => rfl
    | cons y ys => simp at hl
  | cons x xs ih =>
    cases b with
    | nil => simp [ancestorOrSelf] at h
    | cons y ys =>
      simp only [ancestorOrSelf, Bool.and_eq_true, beq_iff_eq] at h
      simp only [List.length_cons, Nat.add_le_add_iff_right] at hl
      exact h.1 ▸ (ih h.2 hl ▸ rfl)

theorem strictAncestor_docLt {a b : Elem} (h : strictAncestor a b = true) :
    docLt a b := by
  rw [strictAncestor, Bool.and_eq_true, bne_iff_ne] at h
  obtain ⟨hanc, hne⟩ := h
  unfold docLt
  induction a generalizing b with
  | nil =>
    cases b with
    | nil => exact absurd rfl hne
    | cons y ys => rfl
  | cons x xs ih =>
    cases b with
    | nil => simp [ancestorOrSelf] at hanc
    | cons y ys =>
      simp only [ancestorOrSelf, Bool.and_eq_true, beq_iff_eq] at hanc
      obtain ⟨rfl, hanc⟩ := hanc
      have hne' : xs ≠ ys := by rintro rfl; exact hne rfl
      simp only [compareNodeOrder, if_neg (lt_irrefl x)]
      exact ih hanc hne'

theorem docLt_extend {a b x y : Elem}
    (hlt : compareNodeOrder a b = Ordering.lt)
    (hanc : ancestorOrSelf a b = false)
    (hx : ancestorOrSelf a x = true) (hy : ancestorOrSelf b y = true) :
    compareNodeOrder x y = Ordering.lt := by
  induction a generalizing b x y with
  | nil => simp [ancestorOrSelf] at hanc
  | cons a0 as ih =>
    cases b with
    | nil => simp [compareNodeOrder] at hlt
    | cons b0 bs =>
      cases x with
      | nil => simp [ancestorOrSelf] at hx
      | cons x0 xs =>
        cases y with
        | nil => simp [ancestorOrSelf] at hy
        | cons y0 ys =>
          simp only [ancestorOrSelf, Bool.and_eq_true, beq_iff_eq] at hx hy
          obtain ⟨rfl, hx⟩ := hx
          obtain ⟨rfl, hy⟩ := hy
          simp only [compareNodeOrder] at hlt ⊢
          by_cases h1 : a0 < b0
          · simp [h1]
          · by_cases h2 : b0 < a0
            · simp [h1, h2] at hlt
            · have : a0 = b0 := Nat.le_antisymm (Nat.not_lt.mp h2) (Nat.not_lt.mp h1)
              subst this
              simp only [if_neg h1, if_neg h2] at hlt ⊢
              simp only [ancestorOrSelf, beq_self_eq_true, Bool.true_and] at hanc
              exact ih hlt hanc hx hy

/-! Lemmas about the outermost-only filter, deduplication and sorting. -/

theorem mem_outerNodesOnly {x : Elem} {xs : List Elem} :
    x ∈ outerNodesOnly xs ↔
      x ∈ xs ∧ ∀ y ∈ xs, strictAncestor y x = false := by
  simp only [outerNodesOnly, List.mem_filter, Bool.not_eq_true',
    List.any_eq_false, Bool.not_eq_true]

theorem outerNodesOnly_sublist (xs : List Elem) :
    (outerNodesOnly xs).Sublist xs := List.filter_sublist xs

theorem outerNodesOnly_pairwise {R : Elem → Elem → Prop} {xs : List Elem}
    (h : xs.Pairwise R) : (outerNodesOnly xs).Pairwise R :=
  List.Pairwise.sublist (outerNodesOnly_sublist xs) h

theorem exists_min_length {xs : List Elem} (h : xs ≠ []) :
    ∃ x ∈ xs, ∀ y ∈ xs, x.length ≤ y.length := by
  induction xs with
  | nil => exact absurd rfl h
  | cons a as ih =>
    cases as with
    | nil => exact ⟨a, by simp, by simp⟩
    | cons b bs =>
      obtain ⟨x, hx, hmin⟩ := ih (by simp)
      by_cases hla : a.length ≤ x.length
      · refine ⟨a, by simp, ?_⟩
        intro y hy
        rcases List.mem_cons.mp hy with rfl | hy
        · exact Nat.le_refl _
        · exact Nat.le_trans hla (hmin y hy)
      · refine ⟨x, List.mem_cons_of_mem a hx, ?_⟩
        intro y hy
        rcases List.mem_cons.mp hy with rfl | hy
        · exact Nat.le_of_lt (Nat.not_le.mp hla)
        · exact hmin y hy

theorem outerNodesOnly_ne_nil {xs : List Elem} (h : xs ≠ []) :
    outerNodesOnly xs ≠ [] := by
  obtain ⟨x, hx, hmin⟩ := exists_min_length h
  have hmem : x ∈ outerNodesOnly xs := by
    rw [mem_outerNodesOnly]
    refine ⟨hx, ?_⟩
    intro y hy
    by_contra hne
    rw [Bool.not_eq_false, strictAncestor, Bool.and_eq_true, bne_iff_ne] at hne
    obtain ⟨hanc, hyx⟩ := hne
    exact hyx (ancestorOrSelf_eq_of_length hanc (hmin y hy))
  exact List.ne_nil_of_mem hmem

theorem removeDuplicatesAux_sublist (seen : List Elem) :
    ∀ l : List Elem, (removeDuplicatesAux seen l).Sublist l := by
  intro l
  induction l generalizing seen with
  | nil => simp [removeDuplicatesAux]
  | cons x xs ih =>
    by_cases hx : x ∈ seen
    · simp only [removeDuplicatesAux, if_pos hx]
      exact (ih seen).trans (List.sublist_cons_self x xs)
    · simp only [removeDuplicatesAux, if_neg hx]
      exact (ih (x :: seen)).cons₂ x

theorem removeDuplicatesAux_not_mem_seen {seen : List Elem}
    {l : List Elem} {y : Elem} (h : y ∈ removeDuplicatesAux seen l) :
    y ∉ seen := by
  induction l generalizing seen with
  | nil => simp [removeDuplicatesAux] at h
  | cons x xs ih =>
    by_cases hx : x ∈ seen
    · rw [removeDuplicatesAux, if_pos hx] at h
      exact ih h
    · rw [removeDuplicatesAux, if_neg hx] at h
      rcases List.mem_cons.mp h with rfl | h
      · exact hx
      · intro hseen
        exact ih h (List.mem_cons_of_mem x hseen)

theorem removeDuplicatesAux_nodup (seen : List Elem) (l : List Elem) :
    (removeDuplicatesAux seen l).Nodup := by
  induction l generalizing seen with
  | nil => simp [removeDuplicatesAux]
  | cons x xs ih =>
    by_cases hx : x ∈ seen
    · rw [removeDuplicatesAux, if_pos hx]
      exact ih seen
    · rw [removeDuplicatesAux, if_neg hx]
      refine List.nodup_cons.mpr ⟨?_, ih (x :: seen)⟩
      intro hmem
      exact removeDuplicatesAux_not_mem_seen hmem (List.mem_cons_self x seen)

theorem removeDuplicates_nodup (l : List Elem) :
    (removeDuplicates l).Nodup := removeDuplicatesAux_nodup [] l

theorem removeDuplicates_sublist (l : List Elem) :
    (removeDuplicates l).Sublist l := removeDuplicatesAux_sublist [] l

theorem removeDuplicates_pairwise {R : Elem → Elem → Prop} {l : List Elem}
    (h : l.Pairwise R) : (removeDuplicates l).Pairwise R :=
  List.Pairwise.sublist (removeDuplicates_sublist l) h

theorem removeDuplicates_ne_nil {l : List Elem} (h : l ≠ []) :
    removeDuplicates l ≠ [] := by
  cases l with
  | nil => exact absurd rfl h
  | cons x xs =>
    simp [removeDuplicates, removeDuplicatesAux]

theorem sortByDocumentOrder_perm (l : List Elem) :
    (sortByDocumentOrder l).Perm l := List.perm_insertionSort docLe l

theorem sortByDocumentOrder_sorted (l : List Elem) :
    (sortByDocumentOrder l).Pairwise docLe := by
  haveI : IsTotal Elem docLe := ⟨docLe_total⟩
  haveI : IsTrans Elem docLe := ⟨fun _ _ _ => docLe_trans⟩
  exact List.sorted_insertionSort docLe l

theorem sortByDocumentOrder_ne_nil {l : List Elem} (h : l ≠ []) :
    sortByDocumentOrder l ≠ [] := by
  intro hc
  exact h (List.Perm.eq_nil ((sortByDocumentOrder_perm l).symm.trans (hc ▸ List.Perm.refl _)))

theorem pairwise_docLt_of_le_nodup {l : List Elem}
    (hle : l.Pairwise docLe) (hnd : l.Nodup) : l.Pairwise docLt := by
  have := hle.and hnd
  refine this.imp ?_
  rintro a b ⟨h1, h2⟩
  rcases docLe_iff.mp h1 with h | rfl
  · exact h
  · exact absurd rfl h2

/-- Concatenating per-base results preserves strict document order when the
bases are strictly ordered, pairwise non-nested, each per-base list is
strictly ordered, and each per-base list is confined to descendants of its
base. -/
theorem pairwise_docLt_flatMap {bases : List Elem} {f : Elem → List Elem}
    (hb : bases.Pairwise docLt)
    (hsep : ∀ b1 ∈ bases, ∀ b2 ∈ bases, docLt b1 b2 →
      ancestorOrSelf b1 b2 = false)
    (hf : ∀ b ∈ bases, (f b).Pairwise docLt)
    (hdesc : ∀ b ∈ bases, ∀ e ∈ f b, ancestorOrSelf b e = true) :
    (bases.flatMap f).Pairwise docLt := by
  induction bases with
  | nil => simp
  | cons b rest ih =>
    rw [List.flatMap_cons, List.pairwise_append]
    obtain ⟨hbr, hbrest⟩ := List.pairwise_cons.mp hb
    refine ⟨hf b (List.mem_cons_self b rest), ?_, ?_⟩
    · refine ih hbrest ?_ ?_ ?_
      · intro b1 h1 b2 h2 hlt
        exact hsep b1 (List.mem_cons_of_mem b h1) b2 (List.mem_cons_of_mem b h2) hlt
      · intro b1 h1
        exact hf b1 (List.mem_cons_of_mem b h1)
      · intro b1 h1
        exact hdesc b1 (List.mem_cons_of_mem b h1)
    · intro x hx y hy
      obtain ⟨b2, hb2, hyb2⟩ := List.mem_flatMap.mp hy
      have hlt : docLt b b2 := hbr b2 hb2
      exact docLt_extend hlt
        (hsep b (List.mem_cons_self b rest) b2 (List.mem_cons_of_mem b hb2) hlt)
        (hdesc b (List.mem_cons_self b rest) x hx)
        (hdesc b2 (List.mem_cons_of_mem b hb2) y hyb2)

/-! Lemmas about the matcher, the segment searcher and diagnostic merging. -/

theorem nameStage_found_ne {env : Env} {node : SemanticNode}
    {els r : List Elem} (hne : els ≠ [])
    (h : nameStage env node els = Result.found r) : r ≠ [] := by
  unfold nameStage at h
  cases hn : node.name with
  | none =>
    rw [hn] at h
    simp only [Result.found.injEq] at h
    exact h ▸ hne
  | some n =>
    rw [hn] at h
    simp only at h
    by_cases he :
        (els.filter fun e => env.nameMatches n (env.getNameFor e)).isEmpty
    · rw [if_pos he] at h; cases h
    · rw [if_neg he] at h
      simp only [Result.found.injEq] at h
      intro hc
      exact he (by rw [h, hc]; rfl)

theorem nameStage_found_pairwise {env : Env} {node : SemanticNode}
    {els r : List Elem} (hp : els.Pairwise docLt)
    (h : nameStage env node els = Result.found r) : r.Pairwise docLt := by
  unfold nameStage at h
  cases hn : node.name with
  | none =>
    rw [hn] at h
    simp only [Result.found.injEq] at h
    exact h ▸ hp
  | some n =>
    rw [hn] at h
    simp only at h
    by_cases he :
        (els.filter fun e => env.nameMatches n (env.getNameFor e)).isEmpty
    · rw [if_pos he] at h; cases h
    · rw [if_neg he] at h
      simp only [Result.found.injEq] at h
      exact h ▸ hp.filter _

theorem attributesStage_found_ne {env : Env} {node : SemanticNode} :
    ∀ {attrs : List (String × String)} {els : List Elem}
      {resolved : AttributeMap} {r : List Elem}, els ≠ [] →
      attributesStage env node els attrs resolved = Result.found r →
      r ≠ [] := by
  intro attrs
  induction attrs with
  | nil =>
    intro els resolved r hne h
    exact nameStage_found_ne hne h
  | cons a rest ih =>
    intro els resolved r hne h
    obtain ⟨name, value⟩ := a
    unfold attributesStage at h
    simp only at h
    by_cases he : (els.filter (attrMatches env name value)).isEmpty
    · rw [if_pos he] at h; cases h
    · rw [if_neg he] at h
      exact ih (by intro hc; exact he (by rw [hc]; rfl)) h

theorem attributesStage_found_pairwise {env : Env} {node : SemanticNode} :
    ∀ {attrs : List (String × String)} {els : List Elem}
      {resolved : AttributeMap} {r : List Elem}, els.Pairwise docLt →
      attributesStage env node els attrs resolved = Result.found r →
      r.Pairwise docLt := by
  intro attrs
  induction attrs with
  | nil =>
    intro els resolved r hp h
    exact nameStage_found_pairwise hp h
  | cons a rest ih =>
    intro els resolved r hp h
    obtain ⟨name, value⟩ := a
    unfold attributesStage at h
    simp only at h
    by_cases he : (els.filter (attrMatches env name value)).isEmpty
    · rw [if_pos he] at h; cases h
    · rw [if_neg he] at h
      exact ih (hp.filter _) h

theorem findBySemanticNode_found_ne {env : Env} {node : SemanticNode}
    {searchBase : List Elem} {ih ip : Bool} {r : List Elem}
    (h : findBySemanticNode env node searchBase ih ip = Result.found r) :
    r ≠ [] := by
  unfold findBySemanticNode at h
  simp only at h
  by_cases he : ((outerNodesOnly searchBase).flatMap fun b =>
      env.findByRole node.role b ih ip).isEmpty
  · rw [if_pos he] at h; cases h
  · rw [if_neg he] at h
    exact attributesStage_found_ne
      (by intro hc; exact he (by rw [hc]; rfl)) h

/-- The contract the role-finder collaborator must satisfy (spec section 6):
per-base results are in document order (strictly, since elements of a tree
are distinct) and confined to descendants of the base. -/
def RoleFinderOrdered (env : Env) : Prop :=
  ∀ role b ih ip,
    (env.findByRole role b ih ip).Pairwise docLt ∧
    ∀ e ∈ env.findByRole role b ih ip, ancestorOrSelf b e = true

theorem findBySemanticNode_found_pairwise {env : Env} {node : SemanticNode}
    {searchBase : List Elem} {ih ip : Bool} {r : List Elem}
    (hE : RoleFinderOrdered env) (hsb : searchBase.Pairwise docLt)
    (h : findBySemanticNode env node searchBase ih ip = Result.found r) :
    r.Pairwise docLt := by
  unfold findBySemanticNode at h
  simp only at h
  have hpair : ((outerNodesOnly searchBase).flatMap fun b =>
      env.findByRole node.role b ih ip).Pairwise docLt := by
    refine pairwise_docLt_flatMap (outerNodesOnly_pairwise hsb) ?_ ?_ ?_
    · intro b1 h1 b2 h2 hlt
      have hsa := (mem_outerNodesOnly.mp h2).2 b1
        ((outerNodesOnly_sublist searchBase).subset h1)
      by_contra hanc
      rw [Bool.not_eq_false] at hanc
      rw [strictAncestor, hanc, Bool.true_and, bne_eq_false_iff_eq] at hsa
      exact docLt_ne hlt hsa
    · intro b _
      exact (hE node.role b ih ip).1
    · intro b _ e he
      exact (hE node.role b ih ip).2 e he
  by_cases he : ((outerNodesOnly searchBase).flatMap fun b =>
      env.findByRole node.role b ih ip).isEmpty
  · rw [if_pos he] at h; cases h
  · rw [if_neg he] at h
    exact attributesStage_found_pairwise hpair h

theorem findBySemanticNodes_nil {env : Env} {base : List Elem}
    {ih ip : Bool} :
    findBySemanticNodes env [] base ih ip = Result.found base := rfl

theorem findBySemanticNodes_cons_fail {env : Env} {n : SemanticNode}
    {rest : List SemanticNode} {base : List Elem} {ih ip : Bool}
    {m : EmptyResultsMetadata}
    (h1 : findBySemanticNode env n base ih ip = Result.noneFound m) :
    findBySemanticNodes env (n :: rest) base ih ip =
      Result.noneFound ⟨[], m.elementsFound, m.notFound, m.partialFind⟩ := by
  simp only [findBySemanticNodes, h1]

theorem findBySemanticNodes_cons_ok_fail {env : Env} {n : SemanticNode}
    {rest : List SemanticNode} {base els : List Elem} {ih ip : Bool}
    {m : EmptyResultsMetadata}
    (h1 : findBySemanticNode env n base ih ip = Result.found els)
    (h2 : findBySemanticNodes env rest els ih ip = Result.noneFound m) :
    findBySemanticNodes env (n :: rest) base ih ip =
      Result.noneFound
        ⟨n :: m.closestFind, m.elementsFound, m.notFound, m.partialFind⟩ := by
  simp only [findBySemanticNodes, h1, h2]

theorem findBySemanticNodes_cons_ok_ok {env : Env} {n : SemanticNode}
    {rest : List SemanticNode} {base els f : List Elem} {ih ip : Bool}
    (h1 : findBySemanticNode env n base ih ip = Result.found els)
    (h2 : findBySemanticNodes env rest els ih ip = Result.found f) :
    findBySemanticNodes env (n :: rest) base ih ip = Result.found f := by
  simp only [findBySemanticNodes, h1, h2]

theorem findBySemanticNodes_found_ne {env : Env} :
    ∀ {nodes : List SemanticNode} {base : List Elem} {ih ip : Bool}
      {r : List Elem}, base ≠ [] →
      findBySemanticNodes env nodes base ih ip = Result.found r →
      r ≠ [] := by
  intro nodes
  induction nodes with
  | nil =>
    intro base ih ip r hne h
    rw [findBySemanticNodes_nil] at h
    simp only [Result.found.injEq] at h
    exact h ▸ hne
  | cons n rest ihn =>
    intro base ih ip r hne h
    cases h1 : findBySemanticNode env n base ih ip with
    | noneFound m => rw [findBySemanticNodes_cons_fail h1] at h; cases h
    | found els =>
      cases h2 : findBySemanticNodes env rest els ih ip with
      | noneFound m =>
        rw [findBySemanticNodes_cons_ok_fail h1 h2] at h; cases h
      | found f =>
        rw [findBySemanticNodes_cons_ok_ok h1 h2] at h
        simp only [Result.found.injEq] at h
        exact h ▸ ihn (findBySemanticNode_found_ne h1) h2

theorem findBySemanticNodes_found_pairwise {env : Env}
    (hE : RoleFinderOrdered env) :
    ∀ {nodes : List SemanticNode} {base : List Elem} {ih ip : Bool}
      {r : List Elem}, base.Pairwise docLt →
      findBySemanticNodes env nodes base ih ip = Result.found r →
      r.Pairwise docLt := by
  intro nodes
  induction nodes with
  | nil =>
    intro base ih ip r hp h
    rw [findBySemanticNodes_nil] at h
    simp only [Result.found.injEq] at h
    exact h ▸ hp
  | cons n rest ihn =>
    intro base ih ip r hp h
    cases h1 : findBySemanticNode env n base ih ip with
    | noneFound m => rw [findBySemanticNodes_cons_fail h1] at h; cases h
    | found els =>
      cases h2 : findBySemanticNodes env rest els ih ip with
      | noneFound m =>
        rw [findBySemanticNodes_cons_ok_fail h1 h2] at h; cases h
      | found f =>
        rw [findBySemanticNodes_cons_ok_ok h1 h2] at h
        simp only [Result.found.injEq] at h
        exact h ▸ ihn (findBySemanticNode_found_pairwise hE hp h1) h2

theorem findBySemanticNodes_noneFound_length {env : Env} :
    ∀ {nodes : List SemanticNode} {base : List Elem} {ih ip : Bool}
      {m : EmptyResultsMetadata},
      findBySemanticNodes env nodes base ih ip = Result.noneFound m →
      m.closestFind.length < nodes.length := by
  intro nodes
  induction nodes with
  | nil =>
    intro base ih ip m h
    rw [findBySemanticNodes_nil] at h
    cases h
  | cons n rest ihn =>
    intro base ih ip m h
    cases h1 : findBySemanticNode env n base ih ip with
    | noneFound m1 =>
      rw [findBySemanticNodes_cons_fail h1] at h
      simp only [Result.noneFound.injEq] at h
      rw [← h]
      simp
    | found els =>
      cases h2 : findBySemanticNodes env rest els ih ip with
      | noneFound m2 =>
        rw [findBySemanticNodes_cons_ok_fail h1 h2] at h
        simp only [Result.noneFound.injEq] at h
        have := ihn h2
        rw [← h]
        simpa using this
      | found f =>
        rw [findBySemanticNodes_cons_ok_ok h1 h2] at h; cases h

theorem foldl_moreSpecific_decomp :
    ∀ (rest : List EmptyResultsMetadata) (m : EmptyResultsMetadata),
      ∃ pre post,
        m :: rest = pre ++ (rest.foldl moreSpecific m) :: post ∧
        (∀ x ∈ pre,
          x.closestFind.length <
            (rest.foldl moreSpecific m).closestFind.length) ∧
        (∀ x ∈ post,
          x.closestFind.length ≤
            (rest.foldl moreSpecific m).closestFind.length) := by
  intro rest
  induction rest with
  | nil =>
    intro m
    exact ⟨[], [], rfl, by simp, by simp⟩
  | cons c cs ih =>
    intro m
    rw [List.foldl_cons]
    by_cases hc : m.closestFind.length < c.closestFind.length
    · have hmc : moreSpecific m c = c := if_pos hc
      rw [hmc]
      obtain ⟨pre, post, heq, hpre, hpost⟩ := ih c
      have hcle : c.closestFind.length ≤
          (cs.foldl moreSpecific c).closestFind.length := by
        have hx : c ∈ pre ++ (cs.foldl moreSpecific c) :: post := by
          rw [← heq]; exact List.mem_cons_self _ _
        rcases List.mem_append.mp hx with hx | hx
        · exact Nat.le_of_lt (hpre c hx)
        · rcases List.mem_cons.mp hx with hx | hx
          · rw [← hx]
          · exact hpost c hx
      refine ⟨m :: pre, post, ?_, ?_, hpost⟩
      · rw [List.cons_append, ← heq]
      · intro x hx
        rcases List.mem_cons.mp hx with hx | hx
        · subst hx
          exact Nat.lt_of_lt_of_le hc hcle
        · exact hpre x hx
    · have hmc : moreSpecific m c = m := if_neg hc
      rw [hmc]
      obtain ⟨pre, post, heq, hpre, hpost⟩ := ih m
      cases pre with
      | nil =>
        simp only [List.nil_append, List.cons.injEq] at heq
        obtain ⟨hm, hcs⟩ := heq
        refine ⟨[], c :: post, ?_, by simp, ?_⟩
        · rw [List.nil_append, ← hm, hcs]
        · intro x hx
          rcases List.mem_cons.mp hx with hx | hx
          · subst hx
            rw [← hm]
            exact Nat.not_lt.mp hc
          · exact hpost x hx
      | cons p ps =>
        simp only [List.cons_append, List.cons.injEq] at heq
        obtain ⟨hp, hcs⟩ := heq
        have hmlt : m.closestFind.length <
            (cs.foldl moreSpecific m).closestFind.length := by
          have := hpre p (List.mem_cons_self p ps)
          rw [← hp] at this
          exact this
        refine ⟨m :: c :: ps, post, ?_, ?_, hpost⟩
        · rw [List.cons_append, List.cons_append, ← hcs]
        · intro x hx
          rcases List.mem_cons.mp hx with hx | hx
          · subst hx
            exact hmlt
          · rcases List.mem_cons.mp hx with hx | hx
            · subst hx
              exact Nat.lt_of_le_of_lt (Nat.not_lt.mp hc) hmlt
            · exact hpre x (List.mem_cons_of_mem p hx)

theorem combineMostSpecific_decomp {metas : List EmptyResultsMetadata}
    (h : metas ≠ []) :
    ∃ pre post,
      metas = pre ++ (combineMostSpecific metas) :: post ∧
      (∀ x ∈ pre,
        x.closestFind.length <
          (combineMostSpecific metas).closestFind.length) ∧
      (∀ x ∈ post,
        x.closestFind.length ≤
          (combineMostSpecific metas).closestFind.length) := by
  cases metas with
  | nil => exact absurd rfl h
  | cons m rest => exact foldl_moreSpecific_decomp rest m

theorem combineMostSpecific_mem {metas : List EmptyResultsMetadata}
    (h : metas ≠ []) : combineMostSpecific metas ∈ metas := by
  obtain ⟨pre, post, heq, -, -⟩ := combineMostSpecific_decomp h
  have hmem : combineMostSpecific metas ∈
      pre ++ combineMostSpecific metas :: post :=
    List.mem_append.mpr (Or.inr (List.mem_cons_self _ _))
  rw [← heq] at hmem
  exact hmem

/-! Branch equations for the matcher and the combiner. -/

theorem findBySemanticNode_roleFail {env : Env} {node : SemanticNode}
    {searchBase : List Elem} {ih ip : Bool}
    (he : ((outerNodesOnly searchBase).flatMap fun b =>
      env.findByRole node.role b ih ip) = []) :
    findBySemanticNode env node searchBase ih ip =
      Result.noneFound
        ⟨[], outerNodesOnly searchBase, NotFoundTarget.role node.role,
         none⟩ := by
  unfold findBySemanticNode
  simp only [he, List.isEmpty_nil, if_true]

theorem findBySemanticNode_roleOk {env : Env} {node : SemanticNode}
    {searchBase : List Elem} {ih ip : Bool}
    (he : ((outerNodesOnly searchBase).flatMap fun b =>
      env.findByRole node.role b ih ip) ≠ []) :
    findBySemanticNode env node searchBase ih ip =
      attributesStage env node
        ((outerNodesOnly searchBase).flatMap fun b =>
          env.findByRole node.role b ih ip)
        node.attributes [] := by
  unfold findBySemanticNode
  simp only
  rw [if_neg (by simpa [List.isEmpty_iff] using he)]

theorem findBySemanticLocator_preFail {env : Env} {loc : SemanticLocator}
    {root : Elem} {ih ip : Bool} {m : EmptyResultsMetadata}
    (h : findBySemanticNodes env loc.preOuter [root] ih ip =
      Result.noneFound m) :
    findBySemanticLocator env loc root ih ip = Result.noneFound m := by
  simp only [findBySemanticLocator, h]

theorem findBySemanticLocator_noPost {env : Env} {loc : SemanticLocator}
    {root : Elem} {ih ip : Bool} {base : List Elem}
    (h : findBySemanticNodes env loc.preOuter [root] ih ip =
      Result.found base)
    (hp : loc.postOuter = []) :
    findBySemanticLocator env loc root ih ip = Result.found base := by
  simp only [findBySemanticLocator, h, hp, List.isEmpty_nil, if_true]

theorem findBySemanticLocator_merge_fail {env : Env} {loc : SemanticLocator}
    {root : Elem} {ih ip : Bool} {base : List Elem}
    (h : findBySemanticNodes env loc.preOuter [root] ih ip =
      Result.found base)
    (hp : loc.postOuter ≠ [])
    (he : mergedElems env loc base ih ip = []) :
    findBySemanticLocator env loc root ih ip =
      Result.noneFound
        ⟨loc.preOuter ++ (mergedMeta env loc base ih ip).closestFind,
         (mergedMeta env loc base ih ip).elementsFound,
         (mergedMeta env loc base ih ip).notFound,
         (mergedMeta env loc base ih ip).partialFind⟩ := by
  have hpf : loc.postOuter.isEmpty = false := by
    rw [Bool.eq_false_iff]
    intro hc
    exact hp (List.isEmpty_iff.mp hc)
  unfold mergedElems postResults at he
  simp only [findBySemanticLocator, h, hpf, Bool.false_eq_true, if_false,
    he, List.isEmpty_nil, if_true, mergedMeta, postResults]

theorem findBySemanticLocator_merge_ok {env : Env} {loc : SemanticLocator}
    {root : Elem} {ih ip : Bool} {base : List Elem}
    (h : findBySemanticNodes env loc.preOuter [root] ih ip =
      Result.found base)
    (hp : loc.postOuter ≠ [])
    (he : mergedElems env loc base ih ip ≠ []) :
    findBySemanticLocator env loc root ih ip =
      Result.found
        (removeDuplicates
          (sortByDocumentOrder (mergedElems env loc base ih ip))) := by
  have hpf : loc.postOuter.isEmpty = false := by
    rw [Bool.eq_false_iff]
    intro hc
    exact hp (List.isEmpty_iff.mp hc)
  have hef : (mergedElems env loc base ih ip).isEmpty = false := by
    rw [Bool.eq_false_iff]
    intro hc
    exact he (List.isEmpty_iff.mp hc)
  unfold mergedElems postResults at hef ⊢
  simp only [findBySemanticLocator, h, hpf, Bool.false_eq_true, if_false,
    hef]

theorem filterMap_foundElems_noneFound
    (metas : List EmptyResultsMetadata) :
    (metas.map Result.noneFound).filterMap foundElems = [] := by
  induction metas with
  | nil => rfl
  | cons m rest ih =>
    simp [List.filterMap_cons, foundElems, ih]

theorem filterMap_metaOf_noneFound (metas : List EmptyResultsMetadata) :
    (metas.map Result.noneFound).filterMap metaOf = metas := by
  induction metas with
  | nil => rfl
  | cons m rest ih =>
    simp [List.filterMap_cons, metaOf, ih]

theorem nameStage_none {env : Env} {node : SemanticNode} {els : List Elem}
    (hn : node.name = none) :
    nameStage env node els = Result.found els := by
  unfold nameStage
  rw [hn]

theorem nameStage_some_fail {env : Env} {node : SemanticNode}
    {els : List Elem} {n : String} (hn : node.name = some n)
    (he : els.filter (fun e => env.nameMatches n (env.getNameFor e)) = []) :
    nameStage env node els =
      Result.noneFound
        ⟨[], els, NotFoundTarget.name n,
         some ⟨node.role, node.attributes⟩⟩ := by
  unfold nameStage
  rw [hn]
  simp only [he, List.isEmpty_nil, if_true]

theorem nameStage_some_ok {env : Env} {node : SemanticNode}
    {els : List Elem} {n : String} (hn : node.name = some n)
    (he : els.filter (fun e => env.nameMatches n (env.getNameFor e)) ≠ []) :
    nameStage env node els =
      Result.found
        (els.filter fun e => env.nameMatches n (env.getNameFor e)) := by
  unfold nameStage
  rw [hn]
  simp only
  rw [if_neg (by simpa [List.isEmpty_iff] using he)]

theorem attributesStage_nil {env : Env} {node : SemanticNode}
    {els : List Elem} {resolved : AttributeMap} :
    attributesStage env node els [] resolved = nameStage env node els := rfl

theorem attributesStage_cons_fail {env : Env} {node : SemanticNode}
    {name value : String} {rest : List (String × String)} {els : List Elem}
    {resolved : AttributeMap}
    (he : els.filter (attrMatches env name value) = []) :
    attributesStage env node els ((name, value) :: rest) resolved =
      Result.noneFound
        ⟨[], els, NotFoundTarget.attribute name value,
         some ⟨node.role, resolved⟩⟩ := by
  simp only [attributesStage, he, List.isEmpty_nil, if_true]

theorem attributesStage_cons_ok {env : Env} {node : SemanticNode}
    {name value : String} {rest : List (String × String)} {els : List Elem}
    {resolved : AttributeMap}
    (he : els.filter (attrMatches env name value) ≠ []) :
    attributesStage env node els ((name, value) :: rest) resolved =
      attributesStage env node (els.filter (attrMatches env name value))
        rest (resolved ++ [(name, value)]) := by
  simp only [attributesStage]
  rw [if_neg (by simpa [List.isEmpty_iff] using he)]

theorem runAttrs_nil {env : Env} {els : List Elem} :
    runAttrs env [] els = some els := rfl

theorem runAttrs_cons_fail {env : Env} {name value : String}
    {rest : List (String × String)} {els : List Elem}
    (he : els.filter (attrMatches env name value) = []) :
    runAttrs env ((name, value) :: rest) els = none := by
  simp only [runAttrs, he, List.isEmpty_nil, if_true]

theorem runAttrs_cons_ok {env : Env} {name value : String}
    {rest : List (String × String)} {els : List Elem}
    (he : els.filter (attrMatches env name value) ≠ []) :
    runAttrs env ((name, value) :: rest) els =
      runAttrs env rest (els.filter (attrMatches env name value)) := by
  simp only [runAttrs]
  rw [if_neg (by simpa [List.isEmpty_iff] using he)]

theorem runNodes_nil {env : Env} {base : List Elem} {ih ip : Bool} :
    runNodes env [] base ih ip = some base := rfl

theorem runNodes_cons_fail {env : Env} {n : SemanticNode}
    {rest : List SemanticNode} {base : List Elem} {ih ip : Bool}
    {m : EmptyResultsMetadata}
    (h : findBySemanticNode env n base ih ip = Result.noneFound m) :
    runNodes env (n :: rest) base ih ip = none := by
  simp only [runNodes, h]

theorem runNodes_cons_ok {env : Env} {n : SemanticNode}
    {rest : List SemanticNode} {base els : List Elem} {ih ip : Bool}
    (h : findBySemanticNode env n base ih ip = Result.found els) :
    runNodes env (n :: rest) base ih ip = runNodes env rest els ih ip := by
  simp only [runNodes, h]

theorem attributesStage_append {env : Env} {node : SemanticNode} :
    ∀ {pre : List (String × String)} {els elems : List Elem}
      {resolved : AttributeMap} {rest : List (String × String)},
      runAttrs env pre els = some elems →
      attributesStage env node els (pre ++ rest) resolved =
        attributesStage env node elems rest (resolved ++ pre) := by
  intro pre
  induction pre with
  | nil =>
    intro els elems resolved rest h
    rw [runAttrs_nil] at h
    simp only [Option.some.injEq] at h
    subst h
    simp
  | cons a pre' ih =>
    intro els elems resolved rest h
    obtain ⟨name, value⟩ := a
    by_cases he : els.filter (attrMatches env name value) = []
    · rw [runAttrs_cons_fail he] at h; cases h
    · rw [runAttrs_cons_ok he] at h
      rw [List.cons_append, attributesStage_cons_ok he, ih h]
      congr 1
      simp

theorem findBySemanticNodes_fail_at {env : Env} :
    ∀ (i : Nat) (nodes : List SemanticNode) (base mid : List Elem)
      (ih ip : Bool) (m : EmptyResultsMetadata) (hi : i < nodes.length),
      runNodes env (nodes.take i) base ih ip = some mid →
      findBySemanticNode env (nodes.get ⟨i, hi⟩) mid ih ip =
        Result.noneFound m →
      findBySemanticNodes env nodes base ih ip =
        Result.noneFound
          ⟨nodes.take i, m.elementsFound, m.notFound, m.partialFind⟩ := by
  intro i
  induction i with
  | zero =>
    intro nodes base mid ih ip m hi hrun h1
    cases nodes with
    | nil => simp at hi
    | cons n rest =>
      rw [List.take_zero] at hrun ⊢
      rw [runNodes_nil] at hrun
      simp only [Option.some.injEq] at hrun
      subst hrun
      have h1' : findBySemanticNode env n base ih ip = Result.noneFound m :=
        h1
      rw [findBySemanticNodes_cons_fail h1']
  | succ i ihi =>
    intro nodes base mid ih ip m hi hrun h1
    cases nodes with
    | nil => simp at hi
    | cons n rest =>
      rw [List.take_succ_cons] at hrun ⊢
      cases hm : findBySemanticNode env n base ih ip with
      | noneFound m0 => rw [runNodes_cons_fail hm] at hrun; cases hrun
      | found els =>
        rw [runNodes_cons_ok hm] at hrun
        have hi' : i < rest.length := by
          simpa using Nat.lt_of_succ_lt_succ (by simpa using hi)
        have h1' : findBySemanticNode env (rest.get ⟨i, hi'⟩) mid ih ip =
            Result.noneFound m := h1
        have hrec := ihi rest els mid ih ip m hi' hrun h1'
        rw [findBySemanticNodes_cons_ok_fail hm hrec]

theorem mergedMeta_closestFind_length {env : Env} {loc : SemanticLocator}
    {base : List Elem} {ih ip : Bool} (hp : loc.postOuter ≠ []) :
    (mergedMeta env loc base ih ip).closestFind.length ≤
      loc.postOuter.length - 1 := by
  unfold mergedMeta
  by_cases hm : (postResults env loc base ih ip).filterMap metaOf = []
  · rw [hm]
    simp [combineMostSpecific, default]
  · have hmem := combineMostSpecific_mem hm
    obtain ⟨r, hr, hmr⟩ := List.mem_filterMap.mp hmem
    unfold postResults at hr
    obtain ⟨b, -, hbr⟩ := List.mem_map.mp hr
    cases r with
    | found _ => cases hmr
    | noneFound mm =>
      simp only [metaOf, Option.some.injEq] at hmr
      have hlen := findBySemanticNodes_noneFound_length hbr
      have hple : 1 ≤ loc.postOuter.length :=
        List.length_pos.mpr hp
      rw [← hmr]
      omega

theorem all_perm {l1 l2 : List (String × String)}
    (h : l1.Perm l2) (p : (String × String) → Bool) :
    l1.all p = l2.all p := by
  rw [Bool.eq_iff_iff, List.all_eq_true, List.all_eq_true]
  constructor
  · intro ha x hx; exact ha x (h.mem_iff.mpr hx)
  · intro ha x hx; exact ha x (h.mem_iff.mp hx)

theorem nameStage_found_congr {env : Env} {node1 node2 : SemanticNode}
    {els r : List Elem} (hname : node1.name = node2.name) :
    (nameStage env node1 els = Result.found r ↔
     nameStage env node2 els = Result.found r) := by
  cases hn : node1.name with
  | none =>
    have hn2 : node2.name = none := hname ▸ hn
    rw [nameStage_none hn, nameStage_none hn2]
  | some n =>
    have hn2 : node2.name = some n := hname ▸ hn
    by_cases he :
        els.filter (fun e => env.nameMatches n (env.getNameFor e)) = []
    · rw [nameStage_some_fail hn he, nameStage_some_fail hn2 he]
      constructor
      · intro h; cases h
      · intro h; cases h
    · rw [nameStage_some_ok hn he, nameStage_some_ok hn2 he]

theorem attributesStage_found_iff {env : Env} {node : SemanticNode} :
    ∀ {attrs : List (String × String)} {els : List Elem}
      {resolved : AttributeMap} {r : List Elem}, els ≠ [] →
      (attributesStage env node els attrs resolved = Result.found r ↔
        (els.filter (fun e => attrs.all fun a => attrMatches env a.1 a.2 e)
            ≠ [] ∧
         nameStage env node
            (els.filter fun e => attrs.all fun a => attrMatches env a.1 a.2 e)
            = Result.found r)) := by
  intro attrs
  induction attrs with
  | nil =>
    intro els resolved r hne
    simp only [List.all_nil, List.filter_true]
    unfold attributesStage
    exact ⟨fun h => ⟨hne, h⟩, fun h => h.2⟩
  | cons a rest ih =>
    intro els resolved r hne
    obtain ⟨name, value⟩ := a
    have hkey : (els.filter fun e =>
          ((name, value) :: rest).all fun a => attrMatches env a.1 a.2 e) =
        ((els.filter (attrMatches env name value)).filter
          fun e => rest.all fun a => attrMatches env a.1 a.2 e) := by
      rw [List.filter_filter]
      apply List.filter_congr
      intro x _
      simp only [List.all_cons]
      rw [Bool.and_comm]
    unfold attributesStage
    simp only
    by_cases he : (els.filter (attrMatches env name value)).isEmpty
    · rw [if_pos he]
      have hfe : els.filter (attrMatches env name value) = [] :=
        List.isEmpty_iff.mp he
      rw [hkey, hfe]
      simp only [List.filter_nil, ne_eq, not_true_eq_false, false_and,
        iff_false]
      intro h; cases h
    · rw [if_neg he]
      have hfne : els.filter (attrMatches env name value) ≠ [] := by
        intro hc; exact he (by rw [hc]; rfl)
      rw [ih hfne, hkey]

theorem exampleEnv_roleFinderOrdered : RoleFinderOrdered exampleEnv := by
  intro role b ih ip
  have hb : exampleEnv.findByRole = exampleFindByRole := rfl
  rw [hb]
  unfold exampleFindByRole
  by_cases h1 : role = "list"
  · rw [if_pos h1]
    constructor
    · exact List.Pairwise.filter _ (by decide)
    · intro e he
      have hmem := (List.mem_filter.mp he).2
      simp only [strictAncestor, Bool.and_eq_true] at hmem
      exact hmem.1
  · rw [if_neg h1]
    by_cases h2 : role = "listitem"
    · rw [if_pos h2]
      constructor
      · exact List.Pairwise.filter _ (by decide)
      · intro e he
        have hmem := (List.mem_filter.mp he).2
        simp only [strictAncestor, Bool.and_eq_true] at hmem
        exact hmem.1
    · rw [if_neg h2]
      exact ⟨List.Pairwise.nil, by intro e he; cases he⟩

/-! The claims. -/

/-- C1: for every locator and root element, whenever `findBySemanticLocator`
returns a Found result its element sequence is non-empty, contains no
duplicate elements and is sorted by document order, assuming the role-finder
collaborator returns its per-base results in document order and confined to
descendants of the base. -/
theorem spec_C1_found_sorted_nodup {env : Env} {locator : SemanticLocator}
    {root : Elem} {ih ip : Bool} {els : List Elem}
    (hE : RoleFinderOrdered env)
    (h : findBySemanticLocator env locator root ih ip = Result.found els) :
    els ≠ [] ∧ els.Nodup ∧ els.Pairwise docLt := by
  cases h0 : findBySemanticNodes env locator.preOuter [root] ih ip with
  | noneFound m =>
    rw [findBySemanticLocator_preFail h0] at h
    cases h
  | found base =>
    by_cases hp : locator.postOuter = []
    · rw [findBySemanticLocator_noPost h0 hp] at h
      simp only [Result.found.injEq] at h
      subst h
      have hne := findBySemanticNodes_found_ne (by simp) h0
      have hpw := findBySemanticNodes_found_pairwise hE (by simp) h0
      exact ⟨hne, hpw.imp fun hab => docLt_ne hab, hpw⟩
    · by_cases he : mergedElems env locator base ih ip = []
      · rw [findBySemanticLocator_merge_fail h0 hp he] at h
        cases h
      · rw [findBySemanticLocator_merge_ok h0 hp he] at h
        simp only [Result.found.injEq] at h
        subst h
        have hle : (removeDuplicates
            (sortByDocumentOrder
              (mergedElems env locator base ih ip))).Pairwise docLe :=
          removeDuplicates_pairwise (sortByDocumentOrder_sorted _)
        have hnd := removeDuplicates_nodup
          (sortByDocumentOrder (mergedElems env locator base ih ip))
        exact ⟨removeDuplicates_ne_nil (sortByDocumentOrder_ne_nil he), hnd,
          pairwise_docLt_of_le_nodup hle hnd⟩

/-- Witness for C1 on the nested-lists example. -/
theorem spec_C1_witness :
    ([[0, 0], [0, 0, 0, 0]] : List Elem) ≠ [] ∧
    ([[0, 0], [0, 0, 0, 0]] : List Elem).Nodup ∧
    ([[0, 0], [0, 0, 0, 0]] : List Elem).Pairwise docLt :=
  @spec_C1_found_sorted_nodup exampleEnv exampleLoc [] false false
    [[0, 0], [0, 0, 0, 0]] exampleEnv_roleFinderOrdered (by decide)

/-- C2: for every tree and locator with zero matches,
`findElementsBySemanticLocator` returns the empty sequence, and
`findElementBySemanticLocator` raises `NoSuchElementError` whose message is
built from the original diagnostic together with the two diagnostic-only
passes, one including hidden elements and one including presentational
elements. -/
theorem spec_C2_zero_matches {env : Env} {locator : String} {root : Elem}
    {m : EmptyResultsMetadata}
    (h : findBySemanticLocator env (env.parse locator) root false false =
      Result.noneFound m) :
    findElementsBySemanticLocator env locator root = [] ∧
    findElementBySemanticLocator env locator root =
      Except.error
        ⟨env.buildFailureMessage (env.parse locator) m
          (matchesOf
            (findBySemanticLocator env (env.parse locator) root true false))
          (matchesOf
            (findBySemanticLocator env (env.parse locator) root false
              true))⟩ := by
  constructor
  · unfold findElementsBySemanticLocator
    rw [h]
  · unfold findElementBySemanticLocator
    simp only [h]

/-- Witness for C2 on an environment whose role finder finds nothing. -/
theorem spec_C2_witness :
    findElementsBySemanticLocator emptyEnv "q" [] = [] ∧
    findElementBySemanticLocator emptyEnv "q" [] =
      Except.error
        ⟨emptyEnv.buildFailureMessage (emptyEnv.parse "q")
          ⟨[], [[]], NotFoundTarget.role "list", none⟩
          (matchesOf
            (findBySemanticLocator emptyEnv (emptyEnv.parse "q") [] true
              false))
          (matchesOf
            (findBySemanticLocator emptyEnv (emptyEnv.parse "q") [] false
              true))⟩ :=
  @spec_C2_zero_matches emptyEnv "q" []
    ⟨[], [[]], NotFoundTarget.role "list", none⟩ (by decide)

/-- C3: the segment searcher applied to an empty sequence returns Found with
the base set unchanged; and if the matcher fails at node index `i`, the
searcher returns NotFound whose `closestFind` equals the first `i` nodes and
whose `elementsFound`, `notFound` and `partialFind` fields equal the failing
matcher call's values, unchanged. -/
theorem spec_C3_segment_searcher {env : Env} {nodes : List SemanticNode}
    {base : List Elem} {ih ip : Bool} :
    (findBySemanticNodes env [] base ih ip = Result.found base) ∧
    (∀ (i : Nat) (hi : i < nodes.length) (mid : List Elem)
      (m : EmptyResultsMetadata),
      runNodes env (nodes.take i) base ih ip = some mid →
      findBySemanticNode env (nodes.get ⟨i, hi⟩) mid ih ip =
        Result.noneFound m →
      findBySemanticNodes env nodes base ih ip =
        Result.noneFound
          ⟨nodes.take i, m.elementsFound, m.notFound, m.partialFind⟩) :=
  ⟨findBySemanticNodes_nil,
   fun i hi mid m hrun h1 =>
     findBySemanticNodes_fail_at i nodes base mid ih ip m hi hrun h1⟩

/-- Witness for C3: failure at index 0 of a one-node segment. -/
theorem spec_C3_witness :
    findBySemanticNodes emptyEnv [⟨"list", [], none⟩] [[]] false false =
      Result.noneFound ⟨[], [[]], NotFoundTarget.role "list", none⟩ :=
  (@spec_C3_segment_searcher emptyEnv [⟨"list", [], none⟩] [[]] false
      false).2
    0 (by decide) [[]] ⟨[], [[]], NotFoundTarget.role "list", none⟩
    (by decide) (by decide)

/-- C4: on a non-empty, document-order-sorted, outermost-filtered candidate
set, if the role stage yields no elements then `findBySemanticNode` returns
NotFound with `notFound` the role, `elementsFound` the input candidate set
and no `partialFind`. -/
theorem spec_C4_role_failure {env : Env} {node : SemanticNode}
    {base : List Elem} {ih ip : Bool}
    (_hne : base ≠ []) (_hsorted : base.Pairwise docLt)
    (houter : outerNodesOnly base = base)
    (hrole : (base.flatMap fun b => env.findByRole node.role b ih ip) = []) :
    findBySemanticNode env node base ih ip =
      Result.noneFound ⟨[], base, NotFoundTarget.role node.role, none⟩ := by
  have he : ((outerNodesOnly base).flatMap fun b =>
      env.findByRole node.role b ih ip) = [] := by
    rw [houter]; exact hrole
  rw [findBySemanticNode_roleFail he, houter]

/-- Witness for C4: a role with no occupants anywhere. -/
theorem spec_C4_witness :
    findBySemanticNode emptyEnv ⟨"list", [], none⟩ [[]] false false =
      Result.noneFound ⟨[], [[]], NotFoundTarget.role "list", none⟩ :=
  @spec_C4_role_failure emptyEnv ⟨"list", [], none⟩ [[]] false false
    (by decide) (by simp) (by decide) (by decide)

/-- C5: if, after the role stage succeeded and the attributes `pre` were
resolved in iteration order, the next attribute `(nm, v)` eliminates all
remaining candidates, then `findBySemanticNode` returns NotFound naming that
attribute in `notFound`, the candidate set just before that filter in
`elementsFound`, and `partialFind` carrying the role with exactly the
attributes resolved before the failing one — independent of the attributes
`post` declared after it. -/
theorem spec_C5_attribute_failure {env : Env} {node : SemanticNode}
    {base els0 elems : List Elem} {ih ip : Bool}
    {pre post : List (String × String)} {nm v : String}
    (hattrs : node.attributes = pre ++ (nm, v) :: post)
    (h0 : ((outerNodesOnly base).flatMap fun b =>
      env.findByRole node.role b ih ip) = els0)
    (hne0 : els0 ≠ [])
    (hpre : runAttrs env pre els0 = some elems)
    (hfail : elems.filter (attrMatches env nm v) = []) :
    findBySemanticNode env node base ih ip =
      Result.noneFound
        ⟨[], elems, NotFoundTarget.attribute nm v,
         some ⟨node.role, pre⟩⟩ := by
  have hne : ((outerNodesOnly base).flatMap fun b =>
      env.findByRole node.role b ih ip) ≠ [] := by
    rw [h0]; exact hne0
  rw [findBySemanticNode_roleOk hne, h0, hattrs,
    attributesStage_append hpre, attributesStage_cons_fail hfail]
  simp

/-- Witness for C5: attribute `b = 2` fails after `a = 1` resolved, with a
third attribute `c = 3` declared after the failing one. -/
theorem spec_C5_witness :
    findBySemanticNode attrEnv
      ⟨"button", [("a", "1"), ("b", "2"), ("c", "3")], none⟩ [[]] false
      false =
      Result.noneFound
        ⟨[], [[0], [1]], NotFoundTarget.attribute "b" "2",
         some ⟨"button", [("a", "1")]⟩⟩ :=
  @spec_C5_attribute_failure attrEnv
    ⟨"button", [("a", "1"), ("b", "2"), ("c", "3")], none⟩ [[]] [[0], [1]]
    [[0], [1]] false false [("a", "1")] [("c", "3")] "b" "2" rfl (by decide)
    (by decide) (by decide) (by decide)

/-- C6: when every per-base `postOuter` search returns NotFound, the combiner
returns a NotFound whose `closestFind` is the full `preOuter` sequence
prefixed onto the `closestFind` of the most specific per-base diagnostic;
the selected diagnostic is one with the longest `closestFind`, the first
such in base-iteration order on ties. -/
theorem spec_C6_diagnostic_merge {env : Env} {loc : SemanticLocator}
    {root : Elem} {ih ip : Bool} {bases : List Elem}
    {metas : List EmptyResultsMetadata}
    (h0 : findBySemanticNodes env loc.preOuter [root] ih ip =
      Result.found bases)
    (hp : loc.postOuter ≠ [])
    (hall : (bases.map fun b =>
        findBySemanticNodes env loc.postOuter [b] ih ip)
      = metas.map Result.noneFound) :
    findBySemanticLocator env loc root ih ip =
      Result.noneFound
        ⟨loc.preOuter ++ (combineMostSpecific metas).closestFind,
         (combineMostSpecific metas).elementsFound,
         (combineMostSpecific metas).notFound,
         (combineMostSpecific metas).partialFind⟩ ∧
    ∃ pre post, metas = pre ++ combineMostSpecific metas :: post ∧
      (∀ x ∈ pre, x.closestFind.length <
        (combineMostSpecific metas).closestFind.length) ∧
      (∀ x ∈ post, x.closestFind.length ≤
        (combineMostSpecific metas).closestFind.length) := by
  have hpost : postResults env loc bases ih ip = metas.map Result.noneFound := by
    unfold postResults
    exact hall
  have he : mergedElems env loc bases ih ip = [] := by
    unfold mergedElems
    rw [hpost, filterMap_foundElems_noneFound]
    rfl
  have hmm : mergedMeta env loc bases ih ip = combineMostSpecific metas := by
    unfold mergedMeta
    rw [hpost, filterMap_metaOf_noneFound]
  have hbne : bases ≠ [] := findBySemanticNodes_found_ne (by simp) h0
  have hmne : metas ≠ [] := by
    intro hc
    subst hc
    simp only [List.map_nil] at hall
    exact hbne (List.map_eq_nil_iff.mp hall)
  constructor
  · have hfin := findBySemanticLocator_merge_fail h0 hp he
    rw [hmm] at hfin
    exact hfin
  · exact combineMostSpecific_decomp hmne

/-- Witness for C6: two bases, one failing one predicate deeper than the
other; the merged diagnostic extends the deeper one. -/
theorem spec_C6_witness :
    findBySemanticLocator mergeEnv mergeLoc [] false false =
      Result.noneFound
        ⟨[⟨"list", [], none⟩, ⟨"item", [], none⟩], [[0, 0]],
         NotFoundTarget.role "sub", none⟩ :=
  (@spec_C6_diagnostic_merge mergeEnv mergeLoc [] false false [[0], [1]]
    [⟨[⟨"item", [], none⟩], [[0, 0]], NotFoundTarget.role "sub", none⟩,
     ⟨[], [[1]], NotFoundTarget.role "item", none⟩]
    (by decide) (by decide) (by decide)).1

/-- C7 counterexample: the claim that the merged Found sequence is
outermost-filtered across the concatenation fails.  On the nested-lists tree
(list `[0]` contains item `[0,0]`, which contains list `[0,0,0]`, which
contains item `[0,0,0,0]`) with locator `{list} outer {listitem}`, base
`[0]` contributes `[0,0]` and base `[0,0,0]` contributes `[0,0,0,0]`, a
strict descendant of `[0,0]`; the merged result keeps both — even though
the role finder honours its ordering and containment contract. -/
theorem spec_C7_counterexample :
    RoleFinderOrdered exampleEnv ∧
    findBySemanticLocator exampleEnv exampleLoc [] false false =
      Result.found [[0, 0], [0, 0, 0, 0]] ∧
    strictAncestor [0, 0] [0, 0, 0, 0] = true :=
  ⟨exampleEnv_roleFinderOrdered, by decide, by decide⟩

/-- C7 amended: the merged Found sequence of a non-empty `postOuter` fan-out
is deduplicated and sorted by document order, and each of its elements is
outermost within the result of the base that contributed it; elements
contributed by different bases may still be nested in one another. -/
theorem spec_C7_amended {env : Env} {loc : SemanticLocator} {root : Elem}
    {ih ip : Bool} {els : List Elem}
    (hp : loc.postOuter ≠ [])
    (h : findBySemanticLocator env loc root ih ip = Result.found els) :
    els ≠ [] ∧ els.Nodup ∧ els.Pairwise docLt ∧
    ∀ e ∈ els, ∃ bases b fb,
      findBySemanticNodes env loc.preOuter [root] ih ip =
        Result.found bases ∧
      b ∈ bases ∧
      findBySemanticNodes env loc.postOuter [b] ih ip = Result.found fb ∧
      e ∈ outerNodesOnly fb := by
  cases h0 : findBySemanticNodes env loc.preOuter [root] ih ip with
  | noneFound m => rw [findBySemanticLocator_preFail h0] at h; cases h
  | found base =>
    by_cases he : mergedElems env loc base ih ip = []
    · rw [findBySemanticLocator_merge_fail h0 hp he] at h; cases h
    · rw [findBySemanticLocator_merge_ok h0 hp he] at h
      simp only [Result.found.injEq] at h
      subst h
      have hle := removeDuplicates_pairwise
        (sortByDocumentOrder_sorted (mergedElems env loc base ih ip))
      have hnd := removeDuplicates_nodup
        (sortByDocumentOrder (mergedElems env loc base ih ip))
      refine ⟨removeDuplicates_ne_nil (sortByDocumentOrder_ne_nil he), hnd,
        pairwise_docLt_of_le_nodup hle hnd, ?_⟩
      intro e hemem
      have h1 : e ∈ sortByDocumentOrder (mergedElems env loc base ih ip) :=
        (removeDuplicates_sublist _).subset hemem
      have h2 : e ∈ mergedElems env loc base ih ip :=
        (sortByDocumentOrder_perm _).subset h1
      unfold mergedElems at h2
      obtain ⟨fl, hfl, hefl⟩ := List.mem_flatMap.mp h2
      obtain ⟨r, hr, hrfl⟩ := List.mem_filterMap.mp hfl
      unfold postResults at hr
      obtain ⟨b, hb, hbr⟩ := List.mem_map.mp hr
      cases r with
      | noneFound mm => cases hrfl
      | found fr =>
        simp only [foundElems, Option.some.injEq] at hrfl
        subst hrfl
        exact ⟨base, b, fr, rfl, hb, hbr, hefl⟩

/-- Witness for the amended C7 on the nested-lists example. -/
theorem spec_C7_witness :
    ([[0, 0], [0, 0, 0, 0]] : List Elem) ≠ [] ∧
    ([[0, 0], [0, 0, 0, 0]] : List Elem).Nodup ∧
    ([[0, 0], [0, 0, 0, 0]] : List Elem).Pairwise docLt ∧
    ∀ e ∈ ([[0, 0], [0, 0, 0, 0]] : List Elem), ∃ bases b fb,
      findBySemanticNodes exampleEnv exampleLoc.preOuter [[]] false false =
        Result.found bases ∧
      b ∈ bases ∧
      findBySemanticNodes exampleEnv exampleLoc.postOuter [b] false false =
        Result.found fb ∧
      e ∈ outerNodesOnly fb :=
  @spec_C7_amended exampleEnv exampleLoc [] false false
    [[0, 0], [0, 0, 0, 0]] (by decide) (by decide)

/-- C8: the outcome of `findBySemanticNode` — whether it succeeds, and on
success the exact surviving element set — does not depend on the iteration
order of the declared attributes. -/
theorem spec_C8_attribute_order_invariance {env : Env}
    {node1 node2 : SemanticNode} {base : List Elem} {ih ip : Bool}
    {els : List Elem}
    (hrole : node1.role = node2.role) (hname : node1.name = node2.name)
    (hperm : node1.attributes.Perm node2.attributes) :
    (findBySemanticNode env node1 base ih ip = Result.found els ↔
     findBySemanticNode env node2 base ih ip = Result.found els) := by
  by_cases he : ((outerNodesOnly base).flatMap fun b =>
      env.findByRole node1.role b ih ip) = []
  · have he2 : ((outerNodesOnly base).flatMap fun b =>
        env.findByRole node2.role b ih ip) = [] := hrole ▸ he
    rw [findBySemanticNode_roleFail he, findBySemanticNode_roleFail he2]
    constructor
    · intro hc; cases hc
    · intro hc; cases hc
  · have he2 : ((outerNodesOnly base).flatMap fun b =>
        env.findByRole node2.role b ih ip) ≠ [] := by
      rw [← hrole]; exact he
    rw [findBySemanticNode_roleOk he, findBySemanticNode_roleOk he2]
    have hsame : ((outerNodesOnly base).flatMap fun b =>
        env.findByRole node2.role b ih ip) =
        ((outerNodesOnly base).flatMap fun b =>
          env.findByRole node1.role b ih ip) := by
      rw [hrole]
    rw [hsame, attributesStage_found_iff he, attributesStage_found_iff he]
    have hfeq : (((outerNodesOnly base).flatMap fun b =>
          env.findByRole node1.role b ih ip).filter fun e =>
            node2.attributes.all fun a => attrMatches env a.1 a.2 e) =
        (((outerNodesOnly base).flatMap fun b =>
          env.findByRole node1.role b ih ip).filter fun e =>
            node1.attributes.all fun a => attrMatches env a.1 a.2 e) :=
      List.filter_congr fun x _ => all_perm hperm.symm _
    rw [hfeq]
    exact and_congr_right fun _ => nameStage_found_congr hname

/-- Witness for C8: the two attribute orders of the same map succeed with
the same element set. -/
theorem spec_C8_witness :
    (findBySemanticNode attrEnv
        ⟨"button", [("a", "1"), ("c", "3")], none⟩ [[]] false false =
        Result.found [[0], [1]] ↔
     findBySemanticNode attrEnv
        ⟨"button", [("c", "3"), ("a", "1")], none⟩ [[]] false false =
        Result.found [[0], [1]]) :=
  @spec_C8_attribute_order_invariance attrEnv
    ⟨"button", [("a", "1"), ("c", "3")], none⟩
    ⟨"button", [("c", "3"), ("a", "1")], none⟩ [[]] false false [[0], [1]]
    rfl rfl (by decide)

/-- C9: whenever resolution returns NotFound for a locator with `n ≥ 1`
predicates in total, the diagnostic's `closestFind` has length at most
`n - 1`; and if the very first predicate of the locator failed, the
`closestFind` is empty (both when the first predicate sits in `preOuter`
and when `preOuter` is empty and it sits in `postOuter`). -/
theorem spec_C9_closestFind_bound {env : Env} {loc : SemanticLocator}
    {root : Elem} {ih ip : Bool} {m : EmptyResultsMetadata}
    (hn : 1 ≤ loc.preOuter.length + loc.postOuter.length)
    (h : findBySemanticLocator env loc root ih ip = Result.noneFound m) :
    m.closestFind.length ≤ loc.preOuter.length + loc.postOuter.length - 1 ∧
    (∀ n rest m1, loc.preOuter = n :: rest →
      findBySemanticNode env n [root] ih ip = Result.noneFound m1 →
      m.closestFind = []) ∧
    (∀ n rest m1, loc.preOuter = [] → loc.postOuter = n :: rest →
      findBySemanticNode env n [root] ih ip = Result.noneFound m1 →
      m.closestFind = []) := by
  refine ⟨?_, ?_, ?_⟩
  · cases h0 : findBySemanticNodes env loc.preOuter [root] ih ip with
    | noneFound m0 =>
      rw [findBySemanticLocator_preFail h0] at h
      simp only [Result.noneFound.injEq] at h
      subst h
      have hlen := findBySemanticNodes_noneFound_length h0
      omega
    | found base =>
      by_cases hp : loc.postOuter = []
      · rw [findBySemanticLocator_noPost h0 hp] at h; cases h
      · by_cases he : mergedElems env loc base ih ip = []
        · rw [findBySemanticLocator_merge_fail h0 hp he] at h
          simp only [Result.noneFound.injEq] at h
          subst h
          show (loc.preOuter ++
            (mergedMeta env loc base ih ip).closestFind).length ≤ _
          rw [List.length_append]
          have hb := @mergedMeta_closestFind_length env loc base ih ip hp
          have hple : 1 ≤ loc.postOuter.length := List.length_pos.mpr hp
          omega
        · rw [findBySemanticLocator_merge_ok h0 hp he] at h; cases h
  · intro n rest m1 hpre h1
    have h0 : findBySemanticNodes env loc.preOuter [root] ih ip =
        Result.noneFound
          ⟨[], m1.elementsFound, m1.notFound, m1.partialFind⟩ := by
      rw [hpre]
      exact findBySemanticNodes_cons_fail h1
    rw [findBySemanticLocator_preFail h0] at h
    simp only [Result.noneFound.injEq] at h
    rw [← h]
  · intro n rest m1 hpree hposte h1
    have h0 : findBySemanticNodes env loc.preOuter [root] ih ip =
        Result.found [root] := by
      rw [hpree]
      exact findBySemanticNodes_nil
    have hfr : findBySemanticNodes env loc.postOuter [root] ih ip =
        Result.noneFound
          ⟨[], m1.elementsFound, m1.notFound, m1.partialFind⟩ := by
      rw [hposte]
      exact findBySemanticNodes_cons_fail h1
    have hpost : postResults env loc [root] ih ip =
        [Result.noneFound
          ⟨[], m1.elementsFound, m1.notFound, m1.partialFind⟩] := by
      unfold postResults
      simp [hfr]
    have hp : loc.postOuter ≠ [] := by
      rw [hposte]; simp
    have he : mergedElems env loc [root] ih ip = [] := by
      unfold mergedElems
      rw [hpost]
      simp [foundElems]
    have hmm : mergedMeta env loc [root] ih ip =
        ⟨[], m1.elementsFound, m1.notFound, m1.partialFind⟩ := by
      unfold mergedMeta
      rw [hpost]
      simp [metaOf, combineMostSpecific]
    rw [findBySemanticLocator_merge_fail h0 hp he] at h
    simp only [Result.noneFound.injEq] at h
    rw [← h]
    show loc.preOuter ++ (mergedMeta env loc [root] ih ip).closestFind = []
    rw [hpree, hmm]
    rfl

/-- Witness for C9: a two-predicate locator failing on its first predicate
has an empty `closestFind`, of length at most one less than the predicate
count. -/
theorem spec_C9_witness :
    (⟨[], [[]], NotFoundTarget.role "list", none⟩ :
        EmptyResultsMetadata).closestFind.length ≤
      exampleLoc.preOuter.length + exampleLoc.postOuter.length - 1 :=
  (@spec_C9_closestFind_bound emptyEnv exampleLoc [] false false
    ⟨[], [[]], NotFoundTarget.role "list", none⟩ (by decide) (by decide)).1

/-- C10: if at least one per-base `postOuter` search returns Found, the
combiner returns a Found result — the diagnostic-merge branch is
unreachable, because a Found result's element list is non-empty and the
outermost-only filter of a non-empty list is non-empty. -/
theorem spec_C10_found_wins {env : Env} {loc : SemanticLocator}
    {root : Elem} {ih ip : Bool} {bases : List Elem} {b : Elem}
    {fb : List Elem}
    (h0 : findBySemanticNodes env loc.preOuter [root] ih ip =
      Result.found bases)
    (hp : loc.postOuter ≠ [])
    (hb : b ∈ bases)
    (hfb : findBySemanticNodes env loc.postOuter [b] ih ip =
      Result.found fb) :
    ∃ els, findBySemanticLocator env loc root ih ip = Result.found els := by
  have hfbne : fb ≠ [] := findBySemanticNodes_found_ne (by simp) hfb
  have houter : outerNodesOnly fb ≠ [] := outerNodesOnly_ne_nil hfbne
  obtain ⟨e, hemem⟩ := List.exists_mem_of_ne_nil _ houter
  have hmem : e ∈ mergedElems env loc bases ih ip := by
    unfold mergedElems
    rw [List.mem_flatMap]
    refine ⟨fb, ?_, hemem⟩
    rw [List.mem_filterMap]
    refine ⟨Result.found fb, ?_, rfl⟩
    unfold postResults
    rw [List.mem_map]
    exact ⟨b, hb, hfb⟩
  have hne : mergedElems env loc bases ih ip ≠ [] :=
    List.ne_nil_of_mem hmem
  exact ⟨_, findBySemanticLocator_merge_ok h0 hp hne⟩

/-- Witness for C10 on the nested-lists example. -/
theorem spec_C10_witness :
    ∃ els, findBySemanticLocator exampleEnv exampleLoc [] false false =
      Result.found els :=
  @spec_C10_found_wins exampleEnv exampleLoc [] false false
    [[0], [0, 0, 0]] [0] [[0, 0], [0, 0, 0, 0]] (by decide) (by decide)
    (by decide) (by decide)

end SemLoc
